import Mathlib

/-!
Shallow embedding of `FAE/FeatureAnalysis/CrossValidation.py`.

The module under verification is orchestration glue: an inner cross-validation
runner (`CrossValidation.Run`) and an outer feature-count sweep
(`CrossValidationOnFeatureNumber.Run`).  External collaborators (the fold
splitter, the classifier, the metric estimator, the filesystem `isdir` query)
are modelled as parameters collected in `CVEnv`; numeric metric values are
modelled as rationals.  Python dictionaries keyed by strings become
insertion-ordered association lists, and the fallible dictionary/list accesses
of the sweep (`metric_record['train_' + m]`, `test_metric_list[0]`,
`np.argmax` on a possibly empty sequence) are modelled in the `Option` monad,
`none` standing for the raised exception.
-/

/-- A sample's feature row. -/
abbrev Row : Type := List ℚ

/-- A metric record: a string-keyed, insertion-ordered mapping to numbers,
as produced by `EstimateMetirc`. -/
abbrev MetricRec : Type := List (String × ℚ)

/-- A `DataContainer`: a feature matrix (list of sample rows) with a label
vector. -/
structure DataContainer where
  data : List Row
  label : List ℚ
deriving Repr, DecidableEq

/-- The value of `GetArray().size`: the total number of elements of the feature matrix
(`numpy` size, rows times columns). -/
def DataContainer.arraySize (dc : DataContainer) : Nat :=
  (dc.data.map List.length).sum

/-- The external collaborators of the module, per the spec's interface
section: fold splitter, classifier (`SetData`/`Fit`/`Predict` collapse into a
fit-then-predict function: `fitPredict fitData fitLabel rows` is the score
sequence that a classifier freshly fitted on `(fitData, fitLabel)` returns
for `rows`; each `Fit()` is a full retrain), metric estimator
(`EstimateMetirc pred label phase`), and the `os.path.isdir` query used by
the sweep's plotting branch. -/
structure CVEnv where
  split : List Row → List ℚ → List (List Nat × List Nat)
  fitPredict : List Row → List ℚ → List Row → List ℚ
  estimate : List ℚ → List ℚ → String → MetricRec
  isdir : String → Bool

/-- Row selection `data[idx, :]`: the rows of `data` at the given indices. -/
def rowsAt (data : List Row) (idx : List Nat) : List Row :=
  idx.map (fun i => data.getD i [])

/-- Label selection `label[idx]`: the labels at the given indices. -/
def labelsAt (label : List ℚ) (idx : List Nat) : List ℚ :=
  idx.map (fun i => label.getD i 0)

/-- The classifier's mutable fit state: the training set of the most recent
`SetData`/`SetDataContainer` + `Fit()` pair. -/
structure ClfState where
  fitData : List Row
  fitLabel : List ℚ
deriving Repr, DecidableEq

/-- The accumulator of the fold loop of `CrossValidation.Run`: the four pooled
prediction/label lists, the `val_index_store` list, and the classifier's
current fit state. -/
structure FoldAcc where
  trainPred : List ℚ
  trainLabel : List ℚ
  valPred : List ℚ
  valLabel : List ℚ
  valIndexStore : List Nat
  clf : ClfState
deriving Repr, DecidableEq

/-- One iteration of the fold loop (`for train_index, val_index in
self.__cv.split(data, label)`): refit the classifier on the fold's training
partition, predict on both partitions, extend the pooled lists. -/
def foldStep (env : CVEnv) (data : List Row) (label : List ℚ)
    (acc : FoldAcc) (fold : List Nat × List Nat) : FoldAcc :=
  let train_data := rowsAt data fold.1
  let train_label := labelsAt label fold.1
  let val_data := rowsAt data fold.2
  let val_label := labelsAt label fold.2
  let clf : ClfState := ⟨train_data, train_label⟩
  let train_prob := env.fitPredict clf.fitData clf.fitLabel train_data
  let val_prob := env.fitPredict clf.fitData clf.fitLabel val_data
  { trainPred := acc.trainPred ++ train_prob
    trainLabel := acc.trainLabel ++ train_label
    valPred := acc.valPred ++ val_prob
    valLabel := acc.valLabel ++ val_label
    valIndexStore := acc.valIndexStore ++ fold.2
    clf := clf }

/-- The whole fold loop of `CrossValidation.Run`, pooling predictions and
labels across all folds. -/
def runFolds (env : CVEnv) (dc : DataContainer) : FoldAcc :=
  (env.split dc.data dc.label).foldl (foldStep env dc.data dc.label)
    ⟨[], [], [], [], [], ⟨[], []⟩⟩

/-- The value returned by `CrossValidation.Run` (the three metric records)
together with the names of the files it wrote under `store_folder` — the
observable side effects. -/
structure RunResult where
  train : MetricRec
  val : MetricRec
  test : MetricRec
  artifacts : List String
deriving Repr, DecidableEq

/-- The method `CrossValidation.Run`: run the fold loop, compute the pooled train and
validation metric records, refit the classifier on the entire dataset
(`SetDataContainer` + `Fit`), evaluate the non-empty test dataset against
that refit model, and, when a store folder is given, persist the arrays,
plots, classifier state and summary table. -/
def CrossValidation.Run (env : CVEnv) (dc tdc : DataContainer)
    (store_folder : String) : RunResult :=
  let acc := runFolds env dc
  let train_metric := env.estimate acc.trainPred acc.trainLabel "train"
  let val_metric := env.estimate acc.valPred acc.valLabel "val"
  let clf : ClfState := ⟨dc.data, dc.label⟩
  let test_metric :=
    if tdc.arraySize > 0 then
      env.estimate (env.fitPredict clf.fitData clf.fitLabel tdc.data) tdc.label "test"
    else []
  let artifacts :=
    if store_folder ≠ "" then
      ["train_predict.npy", "val_predict.npy", "train_label.npy",
       "val_label.npy", "cv_info.csv", "train_ROC.jpg", "val_ROC.jpg"] ++
      (if tdc.arraySize > 0 then
        ["test_predict.npy", "test_label.npy", "test_ROC.jpg"] else []) ++
      ["classifier_state", "result.csv"]
    else []
  ⟨train_metric, val_metric, test_metric, artifacts⟩

/-- A Python `for` loop that may raise: map in the `Option` monad, `none`
standing for the first raised exception. -/
def mapOpt (f : α → Option β) : List α → Option (List β)
  | [] => some []
  | x :: xs =>
    match f x with
    | none => none
    | some y => (mapOpt f xs).map (y :: ·)

/-- The collaborator `np.argmax` on a value sequence: the index of the first occurrence of the
maximum; raises (`none`) on an empty sequence. -/
def npArgmax : List ℚ → Option Nat
  | [] => none
  | x :: xs =>
    some (match npArgmax xs with
      | none => 0
      | some j => if x < xs.getD j 0 then j + 1 else 0)

/-- Python dictionary assignment `d[k] = v` on an insertion-ordered
association list: overwrite in place when the key is present, append
otherwise. -/
def dictInsert (r : MetricRec) (k : String) (v : ℚ) : MetricRec :=
  if (r.lookup k).isSome then
    r.map (fun p => if p.1 = k then (k, v) else p)
  else r ++ [(k, v)]

instance : DecidableRel (fun a b : String × ℚ => a.1 ≤ b.1) :=
  fun a b => decidable_of_iff (a.1.toList ≤ b.1.toList)
    String.le_iff_toList_le.symm

instance : IsTotal (String × ℚ) (fun a b => a.1 ≤ b.1) :=
  ⟨fun a b => le_total a.1 b.1⟩

instance : IsTrans (String × ℚ) (fun a b => a.1 ≤ b.1) :=
  ⟨fun _ _ _ => le_trans⟩

/-- The idiom `dict(sorted(d.items(), key=lambda item: item[0]))`: sort a record's
entries by key; Python's `sorted` is a stable comparison sort, modelled by
the stable `insertionSort`. -/
def sortRec (rec : MetricRec) : MetricRec :=
  List.insertionSort (fun a b => a.1 ≤ b.1) rec

instance :
    DecidableEq (List MetricRec × List MetricRec × List MetricRec) :=
  fun a b =>
    @instDecidableEqProd _ _ inferInstance
      (@instDecidableEqProd _ _ inferInstance inferInstance) a b

/-- Lines 226–231 / 235–240 / 243–248 of the source: start a fresh dict with
`feature_number = fn`, copy every entry of `r` under its key with the first
`k` characters dropped, and sort the result by key. -/
def buildInfo (k : Nat) (fn : Nat) (r : MetricRec) : MetricRec :=
  sortRec (r.foldl (fun acc p => dictInsert acc (p.1.drop k) p.2)
    [("feature_number", (fn : ℚ))])

/-- Events observable in the sweep loop: a `SetSelectedFeatureNumber(n)` +
selector `Run` invocation, and a cross-validation `Run` invocation on a
reduced dataset. -/
inductive SweepEvent where
  | selectorCall (n : Nat)
  | cvCall (dc : DataContainer)
deriving Repr, DecidableEq

/-- The selected-feature-count argument of a selector invocation event. -/
def SweepEvent.selArg : SweepEvent → Option Nat
  | .selectorCall n => some n
  | .cvCall _ => none

/-- The reduced dataset of a cross-validation invocation event. -/
def SweepEvent.cvArg : SweepEvent → Option DataContainer
  | .selectorCall _ => none
  | .cvCall dc => some dc

/-- The per-feature-count metric-record lists accumulated by the sweep loop
of `CrossValidationOnFeatureNumber.Run` (lines 175–195), together with the
trace of selector and cross-validation invocations. -/
structure SweepPhase1 where
  trainList : List MetricRec
  valList : List MetricRec
  testList : List MetricRec
  trace : List SweepEvent
deriving Repr, DecidableEq

/-- One iteration of the sweep loop at feature count `n`: configure and run
the feature selector, then run cross-validation on the reduced dataset with
the per-feature-count store folder. -/
def sweepIter (env : CVEnv) (sel : Nat → DataContainer → DataContainer)
    (dc tdc : DataContainer) (store_folder : String) (n : Nat) :
    MetricRec × MetricRec × MetricRec × List SweepEvent :=
  let reduced := sel n dc
  let r := CrossValidation.Run env reduced tdc
    (store_folder ++ "/feature_" ++ toString n)
  (r.train, r.val, r.test, [.selectorCall n, .cvCall reduced])

/-- The sweep loop `for feature_number in range(1, max_feature_number + 1)`,
collecting the three metric-record lists. -/
def sweepPhase1 (env : CVEnv) (sel : Nat → DataContainer → DataContainer)
    (M : Nat) (dc tdc : DataContainer) (store_folder : String) : SweepPhase1 :=
  let rs := (List.range' 1 M).map (sweepIter env sel dc tdc store_folder)
  ⟨rs.map (·.1), rs.map (·.2.1), rs.map (·.2.2.1),
    (rs.map (·.2.2.2)).flatten⟩

/-- The per-metric dictionary of lines 198–205: parallel train/val/test value
sequences indexed by feature count, read from the phase-prefixed record
keys. -/
structure MetricDict where
  train : List ℚ
  val : List ℚ
  test : List ℚ
  name : String
deriving Repr, DecidableEq

/-- Lines 199–205: build the `MetricDict` for one requested metric name.
A missing phase-prefixed key raises `KeyError` (`none`).  The test sequence
is collected only when `test_metric_list[0]` is a non-empty record; when the
loop body never runs (`M = 0`) the sequence stays empty. -/
def metricDictFor (p1 : SweepPhase1) (M : Nat) (m : String) :
    Option MetricDict := do
  let tr ← mapOpt (fun i => (p1.trainList.getD i []).lookup ("train_" ++ m))
    (List.range M)
  let va ← mapOpt (fun i => (p1.valList.getD i []).lookup ("val_" ++ m))
    (List.range M)
  let te ←
    (if p1.testList.getD 0 [] = [] then pure []
     else mapOpt (fun i => (p1.testList.getD i []).lookup ("test_" ++ m))
       (List.range M))
  pure ⟨tr, va, te, m⟩

/-- Lines 208–219: when a store folder is configured and is a directory, each
metric dictionary's plotting branch reads `test_metric_list[0]`, which raises
`IndexError` (`none`) when the sweep loop never ran. -/
def plotPhase (env : CVEnv) (p1 : SweepPhase1) (metricList : List MetricDict)
    (store_folder : String) : Option Unit :=
  if store_folder ≠ "" ∧ env.isdir store_folder then
    (mapOpt (fun _ => p1.testList.get? 0) metricList).map (fun _ => ())
  else some ()

/-- Lines 225–248: the per-metric selection step.  The best-by-validation
record is the validation record at `np.argmax` of the validation sequence
with its `val_` prefix (4 characters) stripped; when test metrics exist the
test records at the validation optimum and at the test optimum are also
selected, with their `test_` prefix (5 characters) stripped. -/
def selectStep (vml teml : List MetricRec) (md : MetricDict) :
    Option (MetricRec × Option (MetricRec × MetricRec)) := do
  let i ← npArgmax md.val
  let valInfo := buildInfo 4 (i + 1) (vml.getD i [])
  let t0 ← teml.get? 0
  if t0 = [] then
    pure (valInfo, none)
  else do
    let iv ← npArgmax md.val
    let tvInfo := buildInfo 5 (iv + 1) (teml.getD iv [])
    let it ← npArgmax md.test
    let ttInfo := buildInfo 5 (it + 1) (teml.getD it [])
    pure (valInfo, some (tvInfo, ttInfo))

/-- The method `CrossValidationOnFeatureNumber.Run`: the feature-count sweep.  Returns
the best-by-validation record list, the test-at-validation-optimum record
list and the test-at-test-optimum record list, one entry per requested
metric name (test lists empty when no test metrics were produced); `none`
models an uncaught exception. -/
def CrossValidationOnFeatureNumber.Run (env : CVEnv)
    (sel : Nat → DataContainer → DataContainer) (M : Nat)
    (dc tdc : DataContainer) (store_folder : String)
    (metric_name_list : List String) :
    Option (List MetricRec × List MetricRec × List MetricRec) := do
  let p1 := sweepPhase1 env sel M dc tdc store_folder
  let metricList ← mapOpt (metricDictFor p1 M) metric_name_list
  let _ ← plotPhase env p1 metricList store_folder
  let sels ← mapOpt (selectStep p1.valList p1.testList) metricList
  pure (sels.map (·.1),
    sels.filterMap (fun s => s.2.map (·.1)),
    sels.filterMap (fun s => s.2.map (·.2)))

/-- A cell of the summary table written by `SaveResult`. -/
inductive Cell where
  | str (s : String)
  | num (q : ℚ)
deriving Repr, DecidableEq

/-- A value of the `info` dictionary handed to `SaveResult`: a number, a
string, or an iterable of numbers. -/
inductive MVal where
  | num (q : ℚ)
  | str (s : String)
  | arr (l : List ℚ)
deriving Repr, DecidableEq

/-- Lines 58–64: a scalar value becomes one cell, an iterable is spread into
several cells. -/
def MVal.cells : MVal → List Cell
  | .num q => [Cell.num q]
  | .str s => [Cell.str s]
  | .arr l => l.map Cell.num

/-- The key heading a row of the summary table. -/
def rowKey (r : List Cell) : String :=
  match r.getD 0 (Cell.str "") with
  | Cell.str s => s
  | Cell.num _ => ""

instance : DecidableRel (fun a b : String × MVal => a.1 ≤ b.1) :=
  fun a b => decidable_of_iff (a.1.toList ≤ b.1.toList)
    String.le_iff_toList_le.symm

instance : DecidableRel (fun a b : List Cell => rowKey a ≤ rowKey b) :=
  fun a b => decidable_of_iff ((rowKey a).toList ≤ (rowKey b).toList)
    String.le_iff_toList_le.symm

instance : IsTotal (List Cell) (fun a b => rowKey a ≤ rowKey b) :=
  ⟨fun a b => le_total (rowKey a) (rowKey b)⟩

instance : IsTrans (List Cell) (fun a b => rowKey a ≤ rowKey b) :=
  ⟨fun _ _ _ => le_trans⟩

/-- The method `CrossValidation.SaveResult`: sort the dictionary by key (line 54), turn
each entry into a row headed by its key (lines 57–64), and sort the rows
(lines 66/74).  Python's `write_info.sort()` compares the rows
lexicographically as lists; the rows' first cells are the dictionary's keys,
which are pairwise distinct, so the order is decided by the key cell — it is
embedded as a sort by `rowKey`. -/
def CrossValidation.SaveResult (info : List (String × MVal)) :
    List (List Cell) :=
  let sortedInfo := List.insertionSort (fun a b => a.1 ≤ b.1) info
  let write_info := sortedInfo.map (fun p => Cell.str p.1 :: p.2.cells)
  List.insertionSort (fun a b => rowKey a ≤ rowKey b) write_info

/-- Strip the first `k` characters from every key of a record: the
spec-level reading of the phase-prefix removal. -/
def stripKeys (k : Nat) (r : MetricRec) : MetricRec :=
  r.map (fun p => (p.1.drop k, p.2))

/-- The file names of the test-derived artifacts of `CrossValidation.Run`. -/
def testArtifactNames : List String :=
  ["test_predict.npy", "test_label.npy", "test_ROC.jpg"]

/-- The file names written by `CrossValidation.Run` when the test dataset is
empty and a store folder is given. -/
def nonTestArtifactNames : List String :=
  ["train_predict.npy", "val_predict.npy", "train_label.npy",
   "val_label.npy", "cv_info.csv", "train_ROC.jpg", "val_ROC.jpg",
   "classifier_state", "result.csv"]

/-! ### A concrete instantiation of the collaborators, used to exercise the
theorems on closed inputs.  The AUC values realise the spec's worked
example — validation sequence `[0.70, 0.85, 0.81]`, test sequence
`[0.60, 0.62, 0.75]` — scaled by 100, which preserves every comparison. -/

/-- The AUC value the sample estimator reports for a prediction score `n`
in a given phase. -/
def wAuc (phase : String) (n : ℚ) : ℚ :=
  if phase = "test" then
    (if n = 1 then 60 else if n = 2 then 62 else 75)
  else
    (if n = 1 then 70 else if n = 2 then 85 else 81)

/-- A concrete collaborator environment: a single-fold splitter, a
classifier predicting the first feature value of its training set, and an
estimator reporting a single phase-prefixed AUC entry. -/
def wEnv : CVEnv where
  split := fun _ _ => [([0], [0])]
  fitPredict := fun d _ rows => rows.map (fun _ => (d.getD 0 []).getD 0 0)
  estimate := fun pred _ phase => [(phase ++ "_auc", wAuc phase (pred.getD 0 0))]
  isdir := fun _ => false

/-- An alternative fold splitter, used to exercise the independence of the
test metric from the fold structure. -/
def wSplit2 : List Row → List ℚ → List (List Nat × List Nat) :=
  fun _ _ => [([0], [0]), ([0], [0])]

/-- A concrete feature selector: the reduced dataset encodes the selected
feature count. -/
def wSel : Nat → DataContainer → DataContainer :=
  fun n _ => ⟨[[(n : ℚ)]], [1]⟩

/-- A concrete training dataset. -/
def wDC : DataContainer := ⟨[[0]], [0]⟩

/-- A concrete non-empty test dataset. -/
def wTDC : DataContainer := ⟨[[0]], [1]⟩

/-- A concrete empty test dataset (zero samples). -/
def wEmptyTDC : DataContainer := ⟨[], []⟩

/-- The value of the concrete sweep
`CrossValidationOnFeatureNumber.Run wEnv wSel 3 wDC wTDC "" ["auc"]`. -/
def wRes : List MetricRec × List MetricRec × List MetricRec :=
  ([[("auc", 85), ("feature_number", 2)]],
   [[("auc", 62), ("feature_number", 2)]],
   [[("auc", 75), ("feature_number", 3)]])

/-- The metric dictionary the concrete sweep builds for `"auc"`. -/
def wMD : MetricDict :=
  ⟨[70, 85, 81], [70, 85, 81], [60, 62, 75], "auc"⟩

/-! ### Helper lemmas -/

theorem getD_mem_of_lt {l : List α} {j : Nat} (d : α) (h : j < l.length) :
    l.getD j d ∈ l := by
  induction l generalizing j with
  | nil => exact absurd h (by simp)
  | cons x xs ih =>
    cases j with
    | zero => simp
    | succ k =>
      rw [List.getD_cons_succ]
      exact List.mem_cons_of_mem x (ih (by simpa using h))

theorem getD_map_of_lt {l : List α} {j : Nat} (f : α → β) (d : β) (d2 : α)
    (h : j < l.length) : (l.map f).getD j d = f (l.getD j d2) := by
  induction l generalizing j with
  | nil => exact absurd h (by simp)
  | cons x xs ih =>
    cases j with
    | zero => simp
    | succ k =>
      simp only [List.map_cons, List.getD_cons_succ]
      exact ih (by simpa using h)

theorem mapOpt_length {f : α → Option β} :
    ∀ {l : List α} {L : List β}, mapOpt f l = some L → L.length = l.length := by
  intro l
  induction l with
  | nil => intro L h; simp [mapOpt] at h; simp [← h]
  | cons x xs ih =>
    intro L h
    simp only [mapOpt] at h
    cases hx : f x with
    | none => rw [hx] at h; exact absurd h (by simp)
    | some y =>
      rw [hx] at h
      cases hxs : mapOpt f xs with
      | none => rw [hxs] at h; exact absurd h (by simp)
      | some ys =>
        rw [hxs] at h
        simp at h
        simp [← h, ih hxs]

theorem mapOpt_getD {f : α → Option β} :
    ∀ {l : List α} {L : List β}, mapOpt f l = some L →
      ∀ (j : Nat) (d : α) (d2 : β), j < l.length →
        f (l.getD j d) = some (L.getD j d2) := by
  intro l
  induction l with
  | nil => intro L _ j _ _ hj; exact absurd hj (by simp)
  | cons x xs ih =>
    intro L h j d d2 hj
    simp only [mapOpt] at h
    cases hx : f x with
    | none => rw [hx] at h; exact absurd h (by simp)
    | some y =>
      rw [hx] at h
      cases hxs : mapOpt f xs with
      | none => rw [hxs] at h; exact absurd h (by simp)
      | some ys =>
        rw [hxs] at h
        simp at h
        cases j with
        | zero => simp [← h, hx]
        | succ k =>
          rw [← h, List.getD_cons_succ, List.getD_cons_succ]
          exact ih hxs k d d2 (by simpa using hj)

theorem mapOpt_mem {f : α → Option β} :
    ∀ {l : List α} {L : List β}, mapOpt f l = some L →
      ∀ y ∈ L, ∃ x ∈ l, f x = some y := by
  intro l
  induction l with
  | nil => intro L h y hy; simp [mapOpt] at h; subst h; simp at hy
  | cons x xs ih =>
    intro L h y hy
    simp only [mapOpt] at h
    cases hx : f x with
    | none => rw [hx] at h; exact absurd h (by simp)
    | some z =>
      rw [hx] at h
      cases hxs : mapOpt f xs with
      | none => rw [hxs] at h; exact absurd h (by simp)
      | some ys =>
        rw [hxs] at h
        simp at h
        rw [← h] at hy
        rcases List.mem_cons.1 hy with h1 | h2
        · exact ⟨x, by simp, by rw [hx, h1]⟩
        · rcases ih hxs y h2 with ⟨a, ha, hfa⟩
          exact ⟨a, by simp [ha], hfa⟩

theorem mapOpt_eq_some_map {f : α → Option β} {g : α → β} :
    ∀ {l : List α}, (∀ x ∈ l, f x = some (g x)) →
      mapOpt f l = some (l.map g) := by
  intro l
  induction l with
  | nil => intro _; simp [mapOpt]
  | cons x xs ih =>
    intro h
    simp only [mapOpt, h x (by simp)]
    rw [ih (fun a ha => h a (by simp [ha]))]
    simp

theorem lookup_isSome_mem {r : MetricRec} {k : String}
    (h : (r.lookup k).isSome) : ∃ p ∈ r, p.1 = k := by
  induction r with
  | nil => simp [List.lookup] at h
  | cons p t ih =>
    rw [List.lookup] at h
    by_cases hk : k = p.1
    · exact ⟨p, by simp, hk.symm⟩
    · have : (k == p.1) = false := by simpa using hk
      rw [this] at h
      rcases ih h with ⟨q, hq, hq1⟩
      exact ⟨q, by simp [hq], hq1⟩

theorem dictInsert_of_not_mem {r : MetricRec} {k : String} {v : ℚ}
    (h : ∀ p ∈ r, p.1 ≠ k) : dictInsert r k v = r ++ [(k, v)] := by
  rw [dictInsert, if_neg]
  intro hs
  rcases lookup_isSome_mem hs with ⟨p, hp, hp1⟩
  exact h p hp hp1

theorem foldl_dictInsert_append (k : Nat) :
    ∀ (r : MetricRec) (acc : MetricRec),
      (∀ p ∈ r, ∀ q ∈ acc, q.1 ≠ p.1.drop k) →
      ((r.map (fun p => p.1.drop k)).Nodup) →
      r.foldl (fun a p => dictInsert a (p.1.drop k) p.2) acc =
        acc ++ stripKeys k r := by
  intro r
  induction r with
  | nil => intro acc _ _; simp [stripKeys]
  | cons p t ih =>
    intro acc hdisj hnd
    rw [List.foldl_cons,
      dictInsert_of_not_mem (fun q hq => hdisj p (by simp) q hq)]
    rw [ih (acc ++ [(p.1.drop k, p.2)]) ?_ ?_]
    · simp [stripKeys]
    · intro p2 hp2 q hq
      rcases List.mem_append.1 hq with hq1 | hq2
      · exact hdisj p2 (by simp [hp2]) q hq1
      · simp only [List.mem_singleton] at hq2
        rw [hq2]
        simp only [List.map_cons, List.nodup_cons] at hnd
        intro heq
        apply hnd.1
        simp only at heq
        rw [heq]
        exact List.mem_map_of_mem (fun p3 => p3.1.drop k) hp2
    · simp only [List.map_cons, List.nodup_cons] at hnd
      exact hnd.2

theorem buildInfo_eq {k : Nat} {fn : Nat} {r : MetricRec}
    (hnd : (r.map (fun p => p.1.drop k)).Nodup)
    (hfn : ∀ p ∈ r, p.1.drop k ≠ "feature_number") :
    buildInfo k fn r =
      sortRec (("feature_number", (fn : ℚ)) :: stripKeys k r) := by
  rw [buildInfo, foldl_dictInsert_append k r [("feature_number", (fn : ℚ))]
    (fun p hp q hq => by simp at hq; rw [hq]; exact (hfn p hp).symm) hnd]
  rfl

theorem filterMap_getD_all_some {f : α → Option β} :
    ∀ {l : List α}, (∀ a ∈ l, (f a).isSome) →
      ∀ {j : Nat} (d : β) (d2 : α), j < l.length →
        (l.filterMap f).getD j d = (f (l.getD j d2)).getD d := by
  intro l
  induction l with
  | nil => intro _ j _ _ hj; exact absurd hj (by simp)
  | cons x xs ih =>
    intro hall j d d2 hj
    rcases Option.isSome_iff_exists.1 (hall x (by simp)) with ⟨b, hb⟩
    rw [List.filterMap_cons_some hb]
    cases j with
    | zero => simp [hb]
    | succ k =>
      rw [List.getD_cons_succ, List.getD_cons_succ]
      exact ih (fun a ha => hall a (by simp [ha])) d d2 (by simpa using hj)

theorem range_getD {M i : Nat} (d : Nat) (h : i < M) :
    (List.range M).getD i d = i := by
  rw [List.getD_eq_getElem (List.range M) d (by simpa using h)]
  simp

theorem run_test_of_empty {env : CVEnv} {dc tdc : DataContainer} {sf : String}
    (h : tdc.arraySize = 0) : (CrossValidation.Run env dc tdc sf).test = [] := by
  simp [CrossValidation.Run, h]

theorem run_test_of_nonempty {env : CVEnv} {dc tdc : DataContainer}
    {sf : String} (h : 0 < tdc.arraySize) :
    (CrossValidation.Run env dc tdc sf).test =
      env.estimate (env.fitPredict dc.data dc.label tdc.data) tdc.label
        "test" := by
  simp [CrossValidation.Run, h]

theorem sweepPhase1_trainList {env : CVEnv}
    {sel : Nat → DataContainer → DataContainer} {M : Nat}
    {dc tdc : DataContainer} {sf : String} :
    (sweepPhase1 env sel M dc tdc sf).trainList =
      (List.range' 1 M).map (fun n =>
        (CrossValidation.Run env (sel n dc) tdc
          (sf ++ "/feature_" ++ toString n)).train) := by
  simp [sweepPhase1, sweepIter, List.map_map]

theorem sweepPhase1_valList {env : CVEnv}
    {sel : Nat → DataContainer → DataContainer} {M : Nat}
    {dc tdc : DataContainer} {sf : String} :
    (sweepPhase1 env sel M dc tdc sf).valList =
      (List.range' 1 M).map (fun n =>
        (CrossValidation.Run env (sel n dc) tdc
          (sf ++ "/feature_" ++ toString n)).val) := by
  simp [sweepPhase1, sweepIter, List.map_map]

theorem sweepPhase1_testList {env : CVEnv}
    {sel : Nat → DataContainer → DataContainer} {M : Nat}
    {dc tdc : DataContainer} {sf : String} :
    (sweepPhase1 env sel M dc tdc sf).testList =
      (List.range' 1 M).map (fun n =>
        (CrossValidation.Run env (sel n dc) tdc
          (sf ++ "/feature_" ++ toString n)).test) := by
  simp [sweepPhase1, sweepIter, List.map_map]

theorem sweepPhase1_valList_length {env : CVEnv}
    {sel : Nat → DataContainer → DataContainer} {M : Nat}
    {dc tdc : DataContainer} {sf : String} :
    (sweepPhase1 env sel M dc tdc sf).valList.length = M := by
  rw [sweepPhase1_valList]; simp

theorem sweepPhase1_testList_length {env : CVEnv}
    {sel : Nat → DataContainer → DataContainer} {M : Nat}
    {dc tdc : DataContainer} {sf : String} :
    (sweepPhase1 env sel M dc tdc sf).testList.length = M := by
  rw [sweepPhase1_testList]; simp

theorem metricDictFor_inv {p1 : SweepPhase1} {M : Nat} {m : String}
    {md : MetricDict} (h : metricDictFor p1 M m = some md) :
    md.name = m ∧
    mapOpt (fun i => (p1.trainList.getD i []).lookup ("train_" ++ m))
      (List.range M) = some md.train ∧
    mapOpt (fun i => (p1.valList.getD i []).lookup ("val_" ++ m))
      (List.range M) = some md.val ∧
    ((p1.testList.getD 0 [] = [] ∧ md.test = []) ∨
     (p1.testList.getD 0 [] ≠ [] ∧
      mapOpt (fun i => (p1.testList.getD i []).lookup ("test_" ++ m))
        (List.range M) = some md.test)) := by
  simp only [metricDictFor, bind, Option.bind_eq_some, pure,
    Option.some.injEq] at h
  rcases h with ⟨tr, htr, va, hva, te, hte, hmd⟩
  subst hmd
  refine ⟨rfl, htr, hva, ?_⟩
  by_cases h0 : p1.testList.getD 0 [] = []
  · rw [if_pos h0] at hte
    simp at hte
    exact Or.inl ⟨h0, by simpa using hte⟩
  · rw [if_neg h0] at hte
    exact Or.inr ⟨h0, hte⟩

theorem metricDictFor_val_length {p1 : SweepPhase1} {M : Nat} {m : String}
    {md : MetricDict} (h : metricDictFor p1 M m = some md) :
    md.val.length = M := by
  have := (metricDictFor_inv h).2.2.1
  have := mapOpt_length this
  simpa using this

theorem selectStep_inv {vml teml : List MetricRec} {md : MetricDict}
    {s : MetricRec × Option (MetricRec × MetricRec)}
    (h : selectStep vml teml md = some s) :
    ∃ i t0, npArgmax md.val = some i ∧ teml.get? 0 = some t0 ∧
      s.1 = buildInfo 4 (i + 1) (vml.getD i []) ∧
      ((t0 = [] ∧ s.2 = none) ∨
       (t0 ≠ [] ∧ ∃ it, npArgmax md.test = some it ∧
        s.2 = some (buildInfo 5 (i + 1) (teml.getD i []),
          buildInfo 5 (it + 1) (teml.getD it [])))) := by
  simp only [selectStep, bind, Option.bind_eq_some, pure,
    Option.some.injEq] at h
  rcases h with ⟨i, hi, t0, ht0, hrest⟩
  refine ⟨i, t0, hi, ht0, ?_⟩
  by_cases h0 : t0 = []
  · rw [if_pos h0] at hrest
    simp only [pure, Option.some.injEq] at hrest
    exact ⟨by rw [← hrest], Or.inl ⟨h0, by rw [← hrest]⟩⟩
  · rw [if_neg h0] at hrest
    simp only [bind, Option.bind_eq_some, pure, Option.some.injEq] at hrest
    rcases hrest with ⟨iv, hiv, it, hit, hs⟩
    have hivi : iv = i := by
      rw [hi] at hiv
      exact (Option.some_inj.1 hiv).symm
    subst hivi
    exact ⟨by rw [← hs], Or.inr ⟨h0, it, hit, by rw [← hs]⟩⟩

theorem sweepRun_inv {env : CVEnv}
    {sel : Nat → DataContainer → DataContainer} {M : Nat}
    {dc tdc : DataContainer} {sf : String} {names : List String}
    {res : List MetricRec × List MetricRec × List MetricRec}
    (h : CrossValidationOnFeatureNumber.Run env sel M dc tdc sf names =
      some res) :
    ∃ metricList sels,
      mapOpt (metricDictFor (sweepPhase1 env sel M dc tdc sf) M) names =
        some metricList ∧
      mapOpt (selectStep (sweepPhase1 env sel M dc tdc sf).valList
        (sweepPhase1 env sel M dc tdc sf).testList) metricList = some sels ∧
      res = (sels.map (·.1),
        sels.filterMap (fun s => s.2.map (·.1)),
        sels.filterMap (fun s => s.2.map (·.2))) := by
  simp only [CrossValidationOnFeatureNumber.Run, bind, Option.bind_eq_some,
    pure, Option.some.injEq] at h
  rcases h with ⟨ml, hml, u, hu, sels, hsels, hres⟩
  exact ⟨ml, sels, hml, hsels, hres.symm⟩

theorem npArgmax_eq_none_iff {l : List ℚ} : npArgmax l = none ↔ l = [] := by
  cases l <;> simp [npArgmax]

theorem npArgmax_lt_length :
    ∀ {l : List ℚ} {i : Nat}, npArgmax l = some i → i < l.length := by
  intro l
  induction l with
  | nil => intro i h; simp [npArgmax] at h
  | cons x xs ih =>
    intro i h
    simp only [npArgmax, Option.some.injEq] at h
    cases hxs : npArgmax xs with
    | none => rw [hxs] at h; simp at h; simp [← h]
    | some j =>
      rw [hxs] at h
      simp only at h
      by_cases hlt : x < xs.getD j 0
      · rw [if_pos hlt] at h
        have := ih hxs
        simp [← h]; omega
      · rw [if_neg hlt] at h
        simp [← h]

theorem npArgmax_le :
    ∀ {l : List ℚ} {i : Nat}, npArgmax l = some i →
      ∀ k, k < l.length → l.getD k 0 ≤ l.getD i 0 := by
  intro l
  induction l with
  | nil => intro i h; simp [npArgmax] at h
  | cons x xs ih =>
    intro i h k hk
    simp only [npArgmax, Option.some.injEq] at h
    cases hxs : npArgmax xs with
    | none =>
      rw [hxs] at h; simp at h
      have hxe : xs = [] := npArgmax_eq_none_iff.1 hxs
      subst hxe
      simp at hk
      subst hk; simp [← h]
    | some j =>
      rw [hxs] at h
      simp only at h
      by_cases hlt : x < xs.getD j 0
      · rw [if_pos hlt] at h
        subst h
        rw [List.getD_cons_succ]
        cases k with
        | zero => simpa using le_of_lt hlt
        | succ k2 =>
          rw [List.getD_cons_succ]
          exact ih hxs k2 (by simpa using hk)
      · rw [if_neg hlt] at h
        subst h
        rw [List.getD_cons_zero]
        cases k with
        | zero => simp
        | succ k2 =>
          rw [List.getD_cons_succ]
          exact le_trans (ih hxs k2 (by simpa using hk)) (not_lt.1 hlt)

theorem npArgmax_first :
    ∀ {l : List ℚ} {i : Nat}, npArgmax l = some i →
      ∀ k, k < i → l.getD k 0 < l.getD i 0 := by
  intro l
  induction l with
  | nil => intro i h; simp [npArgmax] at h
  | cons x xs ih =>
    intro i h k hk
    simp only [npArgmax, Option.some.injEq] at h
    cases hxs : npArgmax xs with
    | none => rw [hxs] at h; simp at h; omega
    | some j =>
      rw [hxs] at h
      simp only at h
      by_cases hlt : x < xs.getD j 0
      · rw [if_pos hlt] at h
        subst h
        rw [List.getD_cons_succ]
        cases k with
        | zero => simpa using hlt
        | succ k2 =>
          rw [List.getD_cons_succ]
          exact ih hxs k2 (by omega)
      · rw [if_neg hlt] at h
        subst h
        omega

theorem foldSteps_lengths (env : CVEnv) (data : List Row) (label : List ℚ)
    (hlen : ∀ d l rows, (env.fitPredict d l rows).length = rows.length) :
    ∀ (folds : List (List Nat × List Nat)) (acc : FoldAcc),
      (folds.foldl (foldStep env data label) acc).trainPred.length =
          acc.trainPred.length + (folds.map (fun f => f.1.length)).sum ∧
      (folds.foldl (foldStep env data label) acc).trainLabel.length =
          acc.trainLabel.length + (folds.map (fun f => f.1.length)).sum ∧
      (folds.foldl (foldStep env data label) acc).valPred.length =
          acc.valPred.length + (folds.map (fun f => f.2.length)).sum ∧
      (folds.foldl (foldStep env data label) acc).valLabel.length =
          acc.valLabel.length + (folds.map (fun f => f.2.length)).sum := by
  intro folds
  induction folds with
  | nil => intro acc; simp
  | cons f t ih =>
    intro acc
    rw [List.foldl_cons]
    rcases ih (foldStep env data label acc f) with ⟨h1, h2, h3, h4⟩
    have hs : (foldStep env data label acc f).trainPred.length =
          acc.trainPred.length + f.1.length ∧
        (foldStep env data label acc f).trainLabel.length =
          acc.trainLabel.length + f.1.length ∧
        (foldStep env data label acc f).valPred.length =
          acc.valPred.length + f.2.length ∧
        (foldStep env data label acc f).valLabel.length =
          acc.valLabel.length + f.2.length := by
      refine ⟨?_, ?_, ?_, ?_⟩ <;> simp [foldStep, rowsAt, labelsAt, hlen]
    refine ⟨?_, ?_, ?_, ?_⟩
    · rw [h1, hs.1]; simp [List.sum_cons]; omega
    · rw [h2, hs.2.1]; simp [List.sum_cons]; omega
    · rw [h3, hs.2.2.1]; simp [List.sum_cons]; omega
    · rw [h4, hs.2.2.2]; simp [List.sum_cons]; omega

/-! ### The claims -/

/-- C2: `CrossValidation.Run` on an empty test dataset (zero samples) returns
an empty mapping as the third (test) value, computes no test metric, and
writes none of the test-derived artifacts — the artifact list is exactly the
non-test one; this is a normal branch, not an error. -/
theorem c2_run_empty_test_skips_test (env : CVEnv) (dc tdc : DataContainer)
    (sf : String) (h : tdc.arraySize = 0) :
    (CrossValidation.Run env dc tdc sf).test = [] ∧
    (CrossValidation.Run env dc tdc sf).artifacts =
      (if sf = "" then [] else nonTestArtifactNames) ∧
    nonTestArtifactNames.filter (fun a => testArtifactNames.contains a) =
      [] := by
  refine ⟨run_test_of_empty h, ?_, by decide⟩
  by_cases hsf : sf = ""
  · simp [CrossValidation.Run, hsf]
  · simp [CrossValidation.Run, hsf, h, nonTestArtifactNames]

/-- C2 witness: concrete empty test dataset. -/
theorem c2_witness :
    wEmptyTDC.arraySize = 0 ∧
    ((CrossValidation.Run wEnv wDC wEmptyTDC "out").test = [] ∧
     (CrossValidation.Run wEnv wDC wEmptyTDC "out").artifacts =
       (if ("out" : String) = "" then [] else nonTestArtifactNames) ∧
     nonTestArtifactNames.filter (fun a => testArtifactNames.contains a) =
       []) :=
  ⟨by decide, c2_run_empty_test_skips_test wEnv wDC wEmptyTDC "out" (by decide)⟩

/-- C6: with a non-empty test dataset, the test metric record is the
estimator applied to the predictions of a classifier refit on the entire
training dataset (no held-out split); it does not depend on the fold
splitter, hence on no per-fold model. -/
theorem c6_test_metric_from_full_refit (env : CVEnv)
    (split2 : List Row → List ℚ → List (List Nat × List Nat))
    (dc tdc : DataContainer) (sf : String) (h : 0 < tdc.arraySize) :
    (CrossValidation.Run env dc tdc sf).test =
      env.estimate (env.fitPredict dc.data dc.label tdc.data) tdc.label
        "test" ∧
    (CrossValidation.Run ⟨split2, env.fitPredict, env.estimate, env.isdir⟩
      dc tdc sf).test = (CrossValidation.Run env dc tdc sf).test := by
  refine ⟨run_test_of_nonempty h, ?_⟩
  rw [@run_test_of_nonempty ⟨split2, env.fitPredict, env.estimate, env.isdir⟩
    dc tdc sf h, run_test_of_nonempty h]

/-- C6 witness: concrete non-empty test dataset and an alternative
splitter. -/
theorem c6_witness :
    0 < wTDC.arraySize ∧
    ((CrossValidation.Run wEnv wDC wTDC "out").test =
      wEnv.estimate (wEnv.fitPredict wDC.data wDC.label wTDC.data) wTDC.label
        "test" ∧
     (CrossValidation.Run ⟨wSplit2, wEnv.fitPredict, wEnv.estimate,
       wEnv.isdir⟩ wDC wTDC "out").test =
      (CrossValidation.Run wEnv wDC wTDC "out").test) :=
  ⟨by decide, c6_test_metric_from_full_refit wEnv wSplit2 wDC wTDC "out"
    (by decide)⟩

/-- C7: assuming the classifier's `Predict` contract (one score per input
row), the pooled train prediction and label sequences have equal length,
equal to the total number of samples used in a training role across all
folds; likewise the pooled validation sequences for the held-out samples. -/
theorem c7_pooled_lengths (env : CVEnv) (dc : DataContainer)
    (hlen : ∀ d l rows, (env.fitPredict d l rows).length = rows.length) :
    (runFolds env dc).trainPred.length =
      (runFolds env dc).trainLabel.length ∧
    (runFolds env dc).trainPred.length =
      ((env.split dc.data dc.label).map (fun f => f.1.length)).sum ∧
    (runFolds env dc).valPred.length = (runFolds env dc).valLabel.length ∧
    (runFolds env dc).valPred.length =
      ((env.split dc.data dc.label).map (fun f => f.2.length)).sum := by
  rcases foldSteps_lengths env dc.data dc.label hlen
    (env.split dc.data dc.label) ⟨[], [], [], [], [], ⟨[], []⟩⟩ with
    ⟨h1, h2, h3, h4⟩
  rw [runFolds]
  simp only [List.length_nil, Nat.zero_add] at h1 h2 h3 h4
  exact ⟨by rw [h1, h2], by rw [h1], by rw [h3, h4], by rw [h3]⟩

/-- C7 witness: the concrete classifier returns one score per row. -/
theorem c7_witness :
    (runFolds wEnv wDC).trainPred.length =
      (runFolds wEnv wDC).trainLabel.length ∧
    (runFolds wEnv wDC).trainPred.length =
      ((wEnv.split wDC.data wDC.label).map (fun f => f.1.length)).sum ∧
    (runFolds wEnv wDC).valPred.length =
      (runFolds wEnv wDC).valLabel.length ∧
    (runFolds wEnv wDC).valPred.length =
      ((wEnv.split wDC.data wDC.label).map (fun f => f.2.length)).sum :=
  c7_pooled_lengths wEnv wDC (fun d l rows => by simp [wEnv])

/-- C9: the three metric records returned by `CrossValidation.Run` are the
same with or without a store folder — persistence and plotting side effects
never alter the returned values. -/
theorem c9_metrics_independent_of_store (env : CVEnv)
    (dc tdc : DataContainer) (sf : String) :
    (CrossValidation.Run env dc tdc sf).train =
      (CrossValidation.Run env dc tdc "").train ∧
    (CrossValidation.Run env dc tdc sf).val =
      (CrossValidation.Run env dc tdc "").val ∧
    (CrossValidation.Run env dc tdc sf).test =
      (CrossValidation.Run env dc tdc "").test :=
  ⟨rfl, rfl, rfl⟩

theorem sweepPhase1_trace {env : CVEnv}
    {sel : Nat → DataContainer → DataContainer} {M : Nat}
    {dc tdc : DataContainer} {sf : String} :
    (sweepPhase1 env sel M dc tdc sf).trace =
      ((List.range' 1 M).map (fun n =>
        [SweepEvent.selectorCall n, SweepEvent.cvCall (sel n dc)])).flatten := by
  simp [sweepPhase1, sweepIter, List.map_map]
  rfl

theorem filterMap_trace_pairs (sel : Nat → DataContainer → DataContainer)
    (dc : DataContainer) :
    ∀ ns : List Nat,
      ((ns.map (fun n => [SweepEvent.selectorCall n,
        SweepEvent.cvCall (sel n dc)])).flatten).filterMap
          SweepEvent.selArg = ns ∧
      ((ns.map (fun n => [SweepEvent.selectorCall n,
        SweepEvent.cvCall (sel n dc)])).flatten).filterMap
          SweepEvent.cvArg = ns.map (fun n => sel n dc) := by
  intro ns
  induction ns with
  | nil => simp
  | cons n t ih =>
    simp only [List.map_cons, List.flatten_cons, List.filterMap_append]
    rw [ih.1, ih.2]
    refine ⟨?_, ?_⟩ <;> simp [SweepEvent.selArg, SweepEvent.cvArg]

/-- C3: in a sweep with `max_feature_number = M ≥ 1`, the feature selector
is invoked exactly `M` times with selected-feature-count arguments
`1, 2, ..., M` in strictly increasing order, and the cross-validation runner
is invoked once on each reduced dataset in the same order. -/
theorem c3_sweep_invocation_order (env : CVEnv)
    (sel : Nat → DataContainer → DataContainer) (M : Nat)
    (dc tdc : DataContainer) (sf : String) (h : 1 ≤ M) :
    (sweepPhase1 env sel M dc tdc sf).trace.filterMap SweepEvent.selArg =
      List.range' 1 M ∧
    ((sweepPhase1 env sel M dc tdc sf).trace.filterMap
      SweepEvent.selArg).length = M ∧
    List.Chain' (· < ·)
      ((sweepPhase1 env sel M dc tdc sf).trace.filterMap
        SweepEvent.selArg) ∧
    (sweepPhase1 env sel M dc tdc sf).trace.filterMap SweepEvent.cvArg =
      (List.range' 1 M).map (fun n => sel n dc) := by
  have hsel := (filterMap_trace_pairs sel dc (List.range' 1 M)).1
  have hcv := (filterMap_trace_pairs sel dc (List.range' 1 M)).2
  rw [sweepPhase1_trace, hsel, hcv]
  refine ⟨rfl, by simp, ?_, rfl⟩
  exact (List.pairwise_lt_range' 1 M).chain'

/-- C3 witness: sweep with three feature counts. -/
theorem c3_witness :
    1 ≤ 3 ∧
    ((sweepPhase1 wEnv wSel 3 wDC wTDC "").trace.filterMap
        SweepEvent.selArg = List.range' 1 3 ∧
     ((sweepPhase1 wEnv wSel 3 wDC wTDC "").trace.filterMap
        SweepEvent.selArg).length = 3 ∧
     List.Chain' (· < ·)
       ((sweepPhase1 wEnv wSel 3 wDC wTDC "").trace.filterMap
         SweepEvent.selArg) ∧
     (sweepPhase1 wEnv wSel 3 wDC wTDC "").trace.filterMap
        SweepEvent.cvArg = (List.range' 1 3).map (fun n => wSel n wDC)) :=
  ⟨by decide, c3_sweep_invocation_order wEnv wSel 3 wDC wTDC "" (by decide)⟩

theorem metricDictFor_of_zero (p1 : SweepPhase1) (hT : p1.testList = [])
    (m : String) : metricDictFor p1 0 m = some ⟨[], [], [], m⟩ := by
  simp [metricDictFor, mapOpt, hT, bind, pure]

/-- C10: `CrossValidationOnFeatureNumber.Run` requires
`max_feature_number ≥ 1`: with `max_feature_number = 0` and at least one
requested metric name, the sweep loop never executes, the three
per-feature-count metric lists stay empty, and the run raises (first at
`np.argmax` over the empty validation-value sequence, or at
`test_metric_list[0]` in the plotting branch) rather than returning empty
results. -/
theorem c10_zero_feature_number_fails (env : CVEnv)
    (sel : Nat → DataContainer → DataContainer) (dc tdc : DataContainer)
    (sf : String) (names : List String) (h : names ≠ []) :
    CrossValidationOnFeatureNumber.Run env sel 0 dc tdc sf names = none ∧
    (sweepPhase1 env sel 0 dc tdc sf).trainList = [] ∧
    (sweepPhase1 env sel 0 dc tdc sf).valList = [] ∧
    (sweepPhase1 env sel 0 dc tdc sf).testList = [] := by
  have hT : (sweepPhase1 env sel 0 dc tdc sf).testList = [] := by
    rw [sweepPhase1_testList]; simp
  have hTr : (sweepPhase1 env sel 0 dc tdc sf).trainList = [] := by
    rw [sweepPhase1_trainList]; simp
  have hV : (sweepPhase1 env sel 0 dc tdc sf).valList = [] := by
    rw [sweepPhase1_valList]; simp
  refine ⟨?_, hTr, hV, hT⟩
  rcases names with _ | ⟨m, rest⟩
  · exact absurd rfl h
  · have hml : mapOpt (metricDictFor (sweepPhase1 env sel 0 dc tdc sf) 0)
        (m :: rest) =
        some ((m :: rest).map (fun x => (⟨[], [], [], x⟩ : MetricDict))) :=
      mapOpt_eq_some_map (fun x _ =>
        metricDictFor_of_zero (sweepPhase1 env sel 0 dc tdc sf) hT x)
    simp only [CrossValidationOnFeatureNumber.Run, bind, hml,
      Option.some_bind]
    by_cases hc : sf ≠ "" ∧ env.isdir sf
    · rw [plotPhase, if_pos hc]
      simp [mapOpt, hT]
    · rw [plotPhase, if_neg hc]
      simp only [Option.some_bind]
      simp [mapOpt, selectStep, npArgmax, bind]

/-- C10 witness: a concrete sweep with `max_feature_number = 0` and the
default metric-name list. -/
theorem c10_witness :
    (["auc", "accuracy"] : List String) ≠ [] ∧
    (CrossValidationOnFeatureNumber.Run wEnv wSel 0 wDC wTDC ""
        ["auc", "accuracy"] = none ∧
     (sweepPhase1 wEnv wSel 0 wDC wTDC "").trainList = [] ∧
     (sweepPhase1 wEnv wSel 0 wDC wTDC "").valList = [] ∧
     (sweepPhase1 wEnv wSel 0 wDC wTDC "").testList = []) :=
  ⟨by decide, c10_zero_feature_number_fails wEnv wSel wDC wTDC ""
    ["auc", "accuracy"] (by decide)⟩

theorem range'_one_cons {M : Nat} (h : 1 ≤ M) :
    List.range' 1 M = 1 :: List.range' 2 (M - 1) := by
  rcases Nat.exists_eq_add_of_le h with ⟨k, hk⟩
  subst hk
  rw [Nat.add_comm 1 k]
  simp [List.range'_succ]

/-- C5: in a sweep where zero test metrics were produced (empty test
dataset throughout), both test-derived return lists are empty rather than
populated with defaults. -/
theorem c5_no_test_metrics_empty_lists (env : CVEnv)
    (sel : Nat → DataContainer → DataContainer) (M : Nat)
    (dc tdc : DataContainer) (sf : String) (names : List String)
    (res : List MetricRec × List MetricRec × List MetricRec)
    (hM : 1 ≤ M) (ht : tdc.arraySize = 0)
    (hres : CrossValidationOnFeatureNumber.Run env sel M dc tdc sf names =
      some res) :
    res.2.1 = [] ∧ res.2.2 = [] := by
  rcases sweepRun_inv hres with ⟨ml, sels, hml, hsels, hresq⟩
  have htl : (sweepPhase1 env sel M dc tdc sf).testList.get? 0 = some [] := by
    rw [sweepPhase1_testList, range'_one_cons hM]
    simp [run_test_of_empty ht]
  have hall : ∀ s ∈ sels,
      (s : MetricRec × Option (MetricRec × MetricRec)).2 = none := by
    intro s hs
    rcases mapOpt_mem hsels s hs with ⟨md, _, hstep⟩
    rcases selectStep_inv hstep with ⟨i, t0, _, ht0, _, hcase⟩
    rw [htl] at ht0
    have ht0e : t0 = [] := (Option.some_inj.1 ht0).symm
    rcases hcase with ⟨_, h2⟩ | ⟨hne, _⟩
    · exact h2
    · exact absurd ht0e hne
  rw [hresq]
  constructor
  · exact List.filterMap_eq_nil_iff.2 (fun s hs => by rw [hall s hs]; rfl)
  · exact List.filterMap_eq_nil_iff.2 (fun s hs => by rw [hall s hs]; rfl)

/-- C5 witness: a concrete sweep whose test dataset is empty returns empty
test-derived lists. -/
theorem c5_witness :
    1 ≤ 3 ∧ wEmptyTDC.arraySize = 0 ∧
    ((([[("auc", 85), ("feature_number", 2)]], [], []) :
        List MetricRec × List MetricRec × List MetricRec).2.1 = [] ∧
     (([[("auc", 85), ("feature_number", 2)]], [], []) :
        List MetricRec × List MetricRec × List MetricRec).2.2 = []) :=
  ⟨by decide, by decide,
    c5_no_test_metrics_empty_lists wEnv wSel 3 wDC wEmptyTDC "" ["auc"]
      ([[("auc", 85), ("feature_number", 2)]], [], [])
      (by decide) (by decide) (by decide)⟩

/-- C1: for every sweep run and requested metric name, the best-by-validation
selection uses the feature count `i + 1` where `i` is the first index
attaining the maximum of the per-feature-count validation-value sequence
(first occurrence on ties, 1-based as `index + 1`), and the returned record
is the validation metric record at that feature count with its `val_` phase
prefix stripped, a `feature_number` entry added, sorted by key.  The key
hypotheses say the estimator's record keys stay distinct and avoid
`feature_number` after prefix stripping. -/
theorem c1_best_by_validation (env : CVEnv)
    (sel : Nat → DataContainer → DataContainer) (M : Nat)
    (dc tdc : DataContainer) (sf : String) (names : List String)
    (res : List MetricRec × List MetricRec × List MetricRec)
    (j : Nat) (md : MetricDict)
    (hrun : CrossValidationOnFeatureNumber.Run env sel M dc tdc sf names =
      some res)
    (hj : j < names.length)
    (hmd : metricDictFor (sweepPhase1 env sel M dc tdc sf) M
      (names.getD j "") = some md)
    (hkeys : ∀ r ∈ (sweepPhase1 env sel M dc tdc sf).valList,
      (r.map (fun p => p.1.drop 4)).Nodup ∧
      ∀ p ∈ r, p.1.drop 4 ≠ "feature_number") :
    ∃ i, i < M ∧
      (∀ k, k < M → md.val.getD k 0 ≤ md.val.getD i 0) ∧
      (∀ k, k < i → md.val.getD k 0 < md.val.getD i 0) ∧
      res.1.getD j [] =
        sortRec (("feature_number", ((i + 1 : ℕ) : ℚ)) ::
          stripKeys 4
            ((sweepPhase1 env sel M dc tdc sf).valList.getD i [])) ∧
      ("feature_number", ((i + 1 : ℕ) : ℚ)) ∈ res.1.getD j [] := by
  rcases sweepRun_inv hrun with ⟨ml, sels, hml, hsels, hresq⟩
  have hmlg := mapOpt_getD hml j "" ⟨[], [], [], ""⟩ hj
  rw [hmd] at hmlg
  have hmdeq : ml.getD j ⟨[], [], [], ""⟩ = md := (Option.some_inj.1 hmlg).symm
  have hmll : ml.length = names.length := mapOpt_length hml
  have hjml : j < ml.length := by rw [hmll]; exact hj
  have hslen : sels.length = ml.length := mapOpt_length hsels
  have hjs : j < sels.length := by rw [hslen]; exact hjml
  have hsg := mapOpt_getD hsels j ⟨[], [], [], ""⟩ ⟨[], none⟩ hjml
  rw [hmdeq] at hsg
  rcases selectStep_inv hsg with ⟨i, t0, hi, ht0, hs1, _⟩
  have hvlen : md.val.length = M := metricDictFor_val_length hmd
  have hiM : i < M := by
    have := npArgmax_lt_length hi
    rwa [hvlen] at this
  have hres1 : res.1 = sels.map (fun s => s.1) := by rw [hresq]
  have hgd : res.1.getD j [] = (sels.getD j ⟨[], none⟩).1 := by
    rw [hres1]
    exact getD_map_of_lt (fun s => s.1) [] ⟨[], none⟩ hjs
  have hiv : i < (sweepPhase1 env sel M dc tdc sf).valList.length := by
    rw [sweepPhase1_valList_length]
    exact hiM
  rcases hkeys _ (getD_mem_of_lt ([] : MetricRec) hiv) with ⟨hnd, hfn⟩
  have heq : res.1.getD j [] =
      sortRec (("feature_number", ((i + 1 : ℕ) : ℚ)) ::
        stripKeys 4
          ((sweepPhase1 env sel M dc tdc sf).valList.getD i [])) := by
    rw [hgd, hs1]
    exact buildInfo_eq hnd hfn
  refine ⟨i, hiM, ?_, ?_, heq, ?_⟩
  · intro k hk
    exact npArgmax_le hi k (by rw [hvlen]; exact hk)
  · intro k hk
    exact npArgmax_first hi k hk
  · rw [heq]
    simp [sortRec, List.mem_insertionSort]

/-- C1 witness: the spec's worked example — validation sequence
`[70, 85, 81]` selects feature count 2. -/
theorem c1_witness :
    ∃ i, i < 3 ∧
      (∀ k, k < 3 → wMD.val.getD k 0 ≤ wMD.val.getD i 0) ∧
      (∀ k, k < i → wMD.val.getD k 0 < wMD.val.getD i 0) ∧
      wRes.1.getD 0 [] =
        sortRec (("feature_number", ((i + 1 : ℕ) : ℚ)) ::
          stripKeys 4
            ((sweepPhase1 wEnv wSel 3 wDC wTDC "").valList.getD i [])) ∧
      ("feature_number", ((i + 1 : ℕ) : ℚ)) ∈ wRes.1.getD 0 [] :=
  c1_best_by_validation wEnv wSel 3 wDC wTDC "" ["auc"] wRes 0 wMD
    (by decide) (by decide) (by decide) (by decide)

theorem metricDictFor_test_length {p1 : SweepPhase1} {M : Nat} {m : String}
    {md : MetricDict} (h : metricDictFor p1 M m = some md)
    (hne : p1.testList.getD 0 [] ≠ []) : md.test.length = M := by
  rcases (metricDictFor_inv h).2.2.2 with ⟨h0, _⟩ | ⟨_, hmo⟩
  · exact absurd h0 hne
  · have := mapOpt_length hmo
    simpa using this

theorem get?_zero_getD {l : List MetricRec} {t0 : MetricRec}
    (h : l.get? 0 = some t0) : l.getD 0 [] = t0 := by
  cases l with
  | nil => simp at h
  | cons x xs =>
    simp at h
    simp [h]

/-- C4: when test metrics exist, the sweep computes two further selections
per requested metric: the test metric record at the validation-optimal
feature count, and the test metric record at the feature count that is
independently the first argmax of the test-value sequence; both are returned
with their `test_` phase prefix stripped and the selected feature count
annotated.  The two argmax indices are characterised independently, so the
two selections may name different feature counts. -/
theorem c4_test_selection_pair (env : CVEnv)
    (sel : Nat → DataContainer → DataContainer) (M : Nat)
    (dc tdc : DataContainer) (sf : String) (names : List String)
    (res : List MetricRec × List MetricRec × List MetricRec)
    (j : Nat) (md : MetricDict)
    (hrun : CrossValidationOnFeatureNumber.Run env sel M dc tdc sf names =
      some res)
    (hj : j < names.length)
    (hmd : metricDictFor (sweepPhase1 env sel M dc tdc sf) M
      (names.getD j "") = some md)
    (hne : (sweepPhase1 env sel M dc tdc sf).testList.getD 0 [] ≠ [])
    (hkeys : ∀ r ∈ (sweepPhase1 env sel M dc tdc sf).testList,
      (r.map (fun p => p.1.drop 5)).Nodup ∧
      ∀ p ∈ r, p.1.drop 5 ≠ "feature_number") :
    ∃ iv it, iv < M ∧ it < M ∧
      (∀ k, k < M → md.val.getD k 0 ≤ md.val.getD iv 0) ∧
      (∀ k, k < iv → md.val.getD k 0 < md.val.getD iv 0) ∧
      (∀ k, k < M → md.test.getD k 0 ≤ md.test.getD it 0) ∧
      (∀ k, k < it → md.test.getD k 0 < md.test.getD it 0) ∧
      res.2.1.getD j [] =
        sortRec (("feature_number", ((iv + 1 : ℕ) : ℚ)) ::
          stripKeys 5
            ((sweepPhase1 env sel M dc tdc sf).testList.getD iv [])) ∧
      res.2.2.getD j [] =
        sortRec (("feature_number", ((it + 1 : ℕ) : ℚ)) ::
          stripKeys 5
            ((sweepPhase1 env sel M dc tdc sf).testList.getD it [])) := by
  rcases sweepRun_inv hrun with ⟨ml, sels, hml, hsels, hresq⟩
  have hmlg := mapOpt_getD hml j "" ⟨[], [], [], ""⟩ hj
  rw [hmd] at hmlg
  have hmdeq : ml.getD j ⟨[], [], [], ""⟩ = md := (Option.some_inj.1 hmlg).symm
  have hmll : ml.length = names.length := mapOpt_length hml
  have hjml : j < ml.length := by rw [hmll]; exact hj
  have hslen : sels.length = ml.length := mapOpt_length hsels
  have hjs : j < sels.length := by rw [hslen]; exact hjml
  have hsg := mapOpt_getD hsels j ⟨[], [], [], ""⟩ ⟨[], none⟩ hjml
  rw [hmdeq] at hsg
  rcases selectStep_inv hsg with ⟨i, t0, hi, ht0, _, hcase⟩
  have ht0d : (sweepPhase1 env sel M dc tdc sf).testList.getD 0 [] = t0 :=
    get?_zero_getD ht0
  have ht0ne : t0 ≠ [] := by rw [← ht0d]; exact hne
  rcases hcase with ⟨h0, _⟩ | ⟨_, it, hit, hs2⟩
  · exact absurd h0 ht0ne
  have hvlen : md.val.length = M := metricDictFor_val_length hmd
  have htlen : md.test.length = M := metricDictFor_test_length hmd hne
  have hiM : i < M := by
    have := npArgmax_lt_length hi
    rwa [hvlen] at this
  have hitM : it < M := by
    have := npArgmax_lt_length hit
    rwa [htlen] at this
  have hall : ∀ s ∈ sels,
      ∃ pr, (s : MetricRec × Option (MetricRec × MetricRec)).2 = some pr := by
    intro s hs
    rcases mapOpt_mem hsels s hs with ⟨md2, _, hstep⟩
    rcases selectStep_inv hstep with ⟨i2, t02, _, ht02, _, hcase2⟩
    have : t02 = t0 := by
      rw [ht0] at ht02
      exact (Option.some_inj.1 ht02).symm
    subst this
    rcases hcase2 with ⟨h02, _⟩ | ⟨_, it2, _, hs22⟩
    · exact absurd h02 ht0ne
    · exact ⟨_, hs22⟩
  have hallsome1 : ∀ s ∈ sels,
      ((fun s : MetricRec × Option (MetricRec × MetricRec) =>
        s.2.map (fun p => p.1)) s).isSome := by
    intro s hs
    rcases hall s hs with ⟨pr, hpr⟩
    simp [hpr]
  have hallsome2 : ∀ s ∈ sels,
      ((fun s : MetricRec × Option (MetricRec × MetricRec) =>
        s.2.map (fun p => p.2)) s).isSome := by
    intro s hs
    rcases hall s hs with ⟨pr, hpr⟩
    simp [hpr]
  have hres21 : res.2.1 =
      sels.filterMap (fun s => s.2.map (fun p => p.1)) := by rw [hresq]
  have hres22 : res.2.2 =
      sels.filterMap (fun s => s.2.map (fun p => p.2)) := by rw [hresq]
  have hg1 : res.2.1.getD j [] =
      (((sels.getD j ⟨[], none⟩).2.map (fun p => p.1)).getD []) := by
    rw [hres21]
    exact filterMap_getD_all_some hallsome1 [] ⟨[], none⟩ hjs
  have hg2 : res.2.2.getD j [] =
      (((sels.getD j ⟨[], none⟩).2.map (fun p => p.2)).getD []) := by
    rw [hres22]
    exact filterMap_getD_all_some hallsome2 [] ⟨[], none⟩ hjs
  have hivlt : i < (sweepPhase1 env sel M dc tdc sf).testList.length := by
    rw [sweepPhase1_testList_length]
    exact hiM
  have hitlt : it < (sweepPhase1 env sel M dc tdc sf).testList.length := by
    rw [sweepPhase1_testList_length]
    exact hitM
  rcases hkeys _ (getD_mem_of_lt ([] : MetricRec) hivlt) with ⟨hnd1, hfn1⟩
  rcases hkeys _ (getD_mem_of_lt ([] : MetricRec) hitlt) with ⟨hnd2, hfn2⟩
  refine ⟨i, it, hiM, hitM, ?_, ?_, ?_, ?_, ?_, ?_⟩
  · intro k hk
    exact npArgmax_le hi k (by rw [hvlen]; exact hk)
  · intro k hk
    exact npArgmax_first hi k hk
  · intro k hk
    exact npArgmax_le hit k (by rw [htlen]; exact hk)
  · intro k hk
    exact npArgmax_first hit k hk
  · rw [hg1, hs2]
    simp only [Option.map_some', Option.getD_some]
    exact buildInfo_eq hnd1 hfn1
  · rw [hg2, hs2]
    simp only [Option.map_some', Option.getD_some]
    exact buildInfo_eq hnd2 hfn2

/-- C4 witness: the spec's worked example — validation-optimal feature count
2 but test-optimal feature count 3 (test sequence `[60, 62, 75]`); the two
selected records carry different feature numbers, so the selections are
independently computable and distinct. -/
theorem c4_witness :
    (∃ iv it, iv < 3 ∧ it < 3 ∧
      (∀ k, k < 3 → wMD.val.getD k 0 ≤ wMD.val.getD iv 0) ∧
      (∀ k, k < iv → wMD.val.getD k 0 < wMD.val.getD iv 0) ∧
      (∀ k, k < 3 → wMD.test.getD k 0 ≤ wMD.test.getD it 0) ∧
      (∀ k, k < it → wMD.test.getD k 0 < wMD.test.getD it 0) ∧
      wRes.2.1.getD 0 [] =
        sortRec (("feature_number", ((iv + 1 : ℕ) : ℚ)) ::
          stripKeys 5
            ((sweepPhase1 wEnv wSel 3 wDC wTDC "").testList.getD iv [])) ∧
      wRes.2.2.getD 0 [] =
        sortRec (("feature_number", ((it + 1 : ℕ) : ℚ)) ::
          stripKeys 5
            ((sweepPhase1 wEnv wSel 3 wDC wTDC "").testList.getD it []))) ∧
    (wRes.2.1.getD 0 []).lookup "feature_number" = some 2 ∧
    (wRes.2.2.getD 0 []).lookup "feature_number" = some 3 :=
  ⟨c4_test_selection_pair wEnv wSel 3 wDC wTDC "" ["auc"] wRes 0 wMD
    (by decide) (by decide) (by decide) (by decide) (by decide),
   by decide, by decide⟩

/-- C8: for every metric mapping passed to `SaveResult`, the rows of the
written summary table are sorted by key (lexicographic string order), and
the rows are exactly the mapping's entries, each row's first column being
the metric or attribute name followed by its value cells. -/
theorem c8_saveResult_rows_sorted (info : List (String × MVal)) :
    List.Pairwise (fun r s => rowKey r ≤ rowKey s)
      (CrossValidation.SaveResult info) ∧
    (CrossValidation.SaveResult info).Perm
      (info.map (fun p => Cell.str p.1 :: p.2.cells)) := by
  constructor
  · exact List.sorted_insertionSort (fun a b => rowKey a ≤ rowKey b)
      ((List.insertionSort (fun a b : String × MVal => a.1 ≤ b.1) info).map
        (fun p => Cell.str p.1 :: p.2.cells))
  · refine (List.perm_insertionSort (fun a b => rowKey a ≤ rowKey b)
      ((List.insertionSort (fun a b : String × MVal => a.1 ≤ b.1) info).map
        (fun p => Cell.str p.1 :: p.2.cells))).trans ?_
    exact List.Perm.map _
      (List.perm_insertionSort (fun a b : String × MVal => a.1 ≤ b.1) info)
